import Mathlib

/-!
Shallow embedding of the StarRocks pipeline query-lifecycle core:
`be/src/exec/pipeline/query_context.h` (QueryContext, QueryContextManager)
and `be/src/common/tracer.h` (Tracer).

Machine integers are modelled as `Nat` with explicit reduction modulo
`2 ^ 64` at the operations where the C++ code performs wrapping
`size_t` arithmetic (`std::atomic<size_t>::fetch_add` / `fetch_sub`).
Time points and `int64_t` values are modelled as `Int`.
-/

namespace StarRocks
namespace Pipeline

/-- Modulus of `size_t` arithmetic: StarRocks backends build for LP64
targets, where `size_t` is 64 bits wide, so `fetch_add`/`fetch_sub` on
`std::atomic<size_t>` wrap modulo `2 ^ 64`. -/
def size_t_mod : Nat := 2 ^ 64

/-- State of one `QueryContext` (query_context.h).  Fields keep the C++
member names.  `_desc_tbl` is the borrowed `DescriptorTbl*`, modelled as
an optional address (`none` is `nullptr`). -/
structure QueryContext where
  _total_fragments : Nat
  _num_fragments : Nat
  _num_active_fragments : Nat
  _deadline : Int
  _expire_seconds : Int
  _desc_tbl : Option Nat
deriving Repr, DecidableEq

/-- Modelled from the spec: the body of the `QueryContext` constructor is
in `query_context.cpp`, which is not among the sources.  Per the spec,
`num_fragments` ("count of fragments that have started") and
`num_active_fragments` ("count of fragments currently running") start at
zero, `total_fragments` is set during setup, and `descriptor_table` is
unset until `set_desc_tbl`. -/
def freshQueryContext : QueryContext :=
  { _total_fragments := 0
    _num_fragments := 0
    _num_active_fragments := 0
    _deadline := 0
    _expire_seconds := 0
    _desc_tbl := none }

/-- `set_total_fragments(size_t total_fragments)`. -/
def QueryContext.set_total_fragments (q : QueryContext) (t : Nat) : QueryContext :=
  { q with _total_fragments := t }

/-- `increment_num_fragments()`: `_num_fragments.fetch_add(1);
_num_active_fragments.fetch_add(1);`. -/
def QueryContext.increment_num_fragments (q : QueryContext) : QueryContext :=
  { q with
      _num_fragments := (q._num_fragments + 1) % size_t_mod
      _num_active_fragments := (q._num_active_fragments + 1) % size_t_mod }

/-- Wrapping decrement of a `size_t` value, i.e. subtraction of 1 modulo
`2 ^ 64` (the theorem `wrapDec_eq_mod` below shows it agrees with
`(a + (2 ^ 64 - 1)) % 2 ^ 64` on every in-range value). -/
def wrapDec (a : Nat) : Nat :=
  if a = 0 then size_t_mod - 1 else a - 1

/-- `count_down_fragments()`: `return _num_active_fragments.fetch_sub(1) == 1;`.
Returns the boolean result (whether the fetched previous value was 1)
together with the post state; `fetch_sub(1)` on a `size_t` atomic wraps
modulo `2 ^ 64`. -/
def QueryContext.count_down_fragments (q : QueryContext) : Bool × QueryContext :=
  (q._num_active_fragments == 1,
   { q with _num_active_fragments := wrapDec q._num_active_fragments })

/-- `is_finished()`: `return _num_active_fragments.load() == 0;`. -/
def QueryContext.is_finished (q : QueryContext) : Bool :=
  q._num_active_fragments == 0

/-- `set_expire_seconds(int expire_seconds)`: stores `seconds(expire_seconds)`. -/
def QueryContext.set_expire_seconds (q : QueryContext) (e : Int) : QueryContext :=
  { q with _expire_seconds := e }

/-- `is_expired()`: `return is_finished() && now > _deadline;`, where `now`
is the current `steady_clock` time in milliseconds, passed explicitly
here. -/
def QueryContext.is_expired (now : Int) (q : QueryContext) : Bool :=
  q.is_finished && now > q._deadline

/-- `is_dead()`: `return _num_active_fragments == 0 && _num_fragments == _total_fragments;`. -/
def QueryContext.is_dead (q : QueryContext) : Bool :=
  q._num_active_fragments == 0 && q._num_fragments == q._total_fragments

/-- `extend_lifetime()`:
`_deadline = duration_cast<milliseconds>(steady_clock::now().time_since_epoch() + _expire_seconds).count();`
i.e. deadline (ms) becomes `now` (ms) plus `_expire_seconds` converted to
milliseconds; `now` is passed explicitly. -/
def QueryContext.extend_lifetime (now : Int) (q : QueryContext) : QueryContext :=
  { q with _deadline := now + 1000 * q._expire_seconds }

/-- `set_desc_tbl(DescriptorTbl* desc_tbl)`: `DCHECK(_desc_tbl == nullptr);
_desc_tbl = desc_tbl;`.  `debug` is whether this is a debug build: `DCHECK`
aborts on failure in debug builds (result `none`) and compiles to nothing
in release builds. -/
def QueryContext.set_desc_tbl (debug : Bool) (q : QueryContext) (d : Nat) :
    Option QueryContext :=
  if debug && !(q._desc_tbl == none) then none
  else some { q with _desc_tbl := some d }

/-- `desc_tbl()`: `DCHECK(_desc_tbl != nullptr); return _desc_tbl;`.
In a debug build a `nullptr` table aborts (`none`); in a release build the
stored pointer (possibly `nullptr`) is returned as is. -/
def QueryContext.desc_tbl (debug : Bool) (q : QueryContext) : Option (Option Nat) :=
  if debug && (q._desc_tbl == none) then none
  else some q._desc_tbl

/-! ### Sequences of fragment-counter operations -/

/-- One fragment-counter call on a `QueryContext`: a fragment start
(`increment_num_fragments`) or a fragment completion
(`count_down_fragments`). -/
inductive FragOp
  | inc
  | countDown
deriving Repr, DecidableEq

/-- Run a sequence of fragment-counter calls on a context, collecting the
boolean results of the `count_down_fragments` calls in order. -/
def runOps (q : QueryContext) : List FragOp → QueryContext × List Bool
  | [] => (q, [])
  | FragOp.inc :: r => runOps q.increment_num_fragments r
  | FragOp.countDown :: r =>
      let res := q.count_down_fragments
      let rest := runOps res.2 r
      (rest.1, res.1 :: rest.2)

/-- The `count_down_fragments` results of a run, as a function of the
initial `_num_active_fragments` value alone. -/
def runResults (a : Nat) : List FragOp → List Bool
  | [] => []
  | FragOp.inc :: r => runResults ((a + 1) % size_t_mod) r
  | FragOp.countDown :: r =>
      (a == 1) :: runResults (wrapDec a) r

/-- The value of `_num_active_fragments` after each call of a run, as a
function of the initial value alone. -/
def runActives (a : Nat) : List FragOp → List Nat
  | [] => []
  | FragOp.inc :: r =>
      ((a + 1) % size_t_mod) :: runActives ((a + 1) % size_t_mod) r
  | FragOp.countDown :: r =>
      wrapDec a :: runActives (wrapDec a) r

/-- A run neither overflows nor underflows the active counter: every
`inc` happens below `2 ^ 64 - 1` and every `countDown` happens at a
positive count. -/
def noWrapB (a : Nat) : List FragOp → Bool
  | [] => true
  | FragOp.inc :: r => decide (a + 1 < size_t_mod) && noWrapB (a + 1) r
  | FragOp.countDown :: r => decide (1 ≤ a) && noWrapB (a - 1) r

/-- A `QueryContext` mutator from the public interface other than setup:
fragment-counter calls, `set_expire_seconds`, `extend_lifetime` (with its
"now" time point made explicit) and `set_desc_tbl` (release-build
semantics).  The remaining public members are pure reads. -/
inductive QOp
  | inc
  | countDown
  | setExpire (e : Int)
  | extendLifetime (now : Int)
  | setDescTbl (d : Nat)
deriving Repr, DecidableEq

/-- Apply one public-interface mutator. -/
def applyQOp (q : QueryContext) : QOp → QueryContext
  | QOp.inc => q.increment_num_fragments
  | QOp.countDown => q.count_down_fragments.2
  | QOp.setExpire e => q.set_expire_seconds e
  | QOp.extendLifetime now => q.extend_lifetime now
  | QOp.setDescTbl d => (q.set_desc_tbl false d).getD q

/-- Run a sequence of public-interface mutators. -/
def runQOps (q : QueryContext) : List QOp → QueryContext
  | [] => q
  | op :: r => runQOps (applyQOp q op) r

/-- Number of `increment_num_fragments` calls in a sequence. -/
def countInc (l : List QOp) : Nat := l.count QOp.inc

/-- Number of `count_down_fragments` calls in a sequence. -/
def countCd (l : List QOp) : Nat := l.count QOp.countDown

/-- Deadlines produced by a sequence of `extend_lifetime()` calls at the
given "now" time points (milliseconds), in order. -/
def runExtends (q : QueryContext) : List Int → List Int
  | [] => []
  | n :: r => (q.extend_lifetime n)._deadline :: runExtends (q.extend_lifetime n) r

/-- Boolean check that a list of time points is non-decreasing. -/
def chainLeB : List Int → Bool
  | [] => true
  | [_] => true
  | a :: b :: r => decide (a ≤ b) && chainLeB (b :: r)

/-- Ownership carried by a handle returned from the registry. -/
inductive HandleKind
  | rawPointer
  | sharedOwnership
deriving Repr, DecidableEq

/-- Ownership of the handle returned by `QueryContextManager::get_or_register`,
read off its declaration `QueryContext* get_or_register(const TUniqueId& query_id)`
in query_context.h: a raw, non-owning pointer. -/
def get_or_register_handle : HandleKind := HandleKind.rawPointer

/-- Ownership of the handle returned by `QueryContextManager::get`, read off
its declaration `QueryContextPtr get(const TUniqueId& query_id)` in
query_context.h.  `QueryContextPtr` is declared in pipeline_fwd.h, which is
not among the sources; per the spec the registry maps hold "shared-owned
QueryContext instances", so `QueryContextPtr` is a shared-ownership smart
pointer. -/
def get_handle : HandleKind := HandleKind.sharedOwnership

/-- A 128-bit query identifier: a (high, low) integer pair
(`TUniqueId` from Types_types.h). -/
structure TUniqueId where
  hi : Int
  lo : Int
deriving Repr, DecidableEq

/-- One shard of the registry: a live map (`_context_maps[i]`) and a
tombstone map (`_second_chance_maps[i]`, entries carrying a grace-expiry
timestamp in milliseconds), modelled as association lists. -/
structure ManagerShard where
  ctx_map : List (TUniqueId × QueryContext)
  second_chance : List (TUniqueId × QueryContext × Int)
deriving Repr, DecidableEq

/-- Modelled from the spec: the bodies of `QueryContextManager::get`,
`QueryContextManager::remove` and the reaper sweep are in
query_context.cpp, which is not among the sources; query_context.h shows
only the sharded pair of maps (`_context_maps`, `_second_chance_maps`).
The registry state is the list of shards plus the tombstone grace period
(an operational tuning parameter). -/
structure QueryContextManager where
  shards : List ManagerShard
  grace_ms : Int
deriving Repr, DecidableEq

/-- Association-list lookup in a live map. -/
def lookupLive (m : List (TUniqueId × QueryContext)) (id : TUniqueId) :
    Option QueryContext :=
  (m.find? (fun e => decide (e.1 = id))).map (fun e => e.2)

/-- Association-list lookup in a tombstone map (ignoring the stamp). -/
def lookupTomb (m : List (TUniqueId × QueryContext × Int)) (id : TUniqueId) :
    Option QueryContext :=
  (m.find? (fun e => decide (e.1 = id))).map (fun e => e.2.1)

/-- Association-list lookup of a tombstone entry together with its
grace-expiry stamp. -/
def lookupTombEntry (m : List (TUniqueId × QueryContext × Int)) (id : TUniqueId) :
    Option (QueryContext × Int) :=
  (m.find? (fun e => decide (e.1 = id))).map (fun e => e.2)

/-- Modelled from the spec: shard selection is
`hash(query_id) mod shard_count`; the hash function (util/hash_util.hpp is
not among the sources) is passed explicitly. -/
def shardIdx (hash : TUniqueId → Nat) (m : QueryContextManager) (id : TUniqueId) :
    Nat :=
  hash id % m.shards.length

/-- Modelled from the spec: `get(query_id)` is a shared-lock lookup in the
shard's live map, falling back to the tombstone map; empty if absent from
both. -/
def mgrGet (hash : TUniqueId → Nat) (m : QueryContextManager) (id : TUniqueId) :
    Option QueryContext :=
  (m.shards[shardIdx hash m id]?).bind
    (fun s => (lookupLive s.ctx_map id).orElse (fun _ => lookupTomb s.second_chance id))

/-- The live-map entry for an id, if any (the spec's "present in the live
map"). -/
def mgrGetLive (hash : TUniqueId → Nat) (m : QueryContextManager) (id : TUniqueId) :
    Option QueryContext :=
  (m.shards[shardIdx hash m id]?).bind (fun s => lookupLive s.ctx_map id)

/-- The tombstone entry for an id together with its grace-expiry stamp, if
any. -/
def mgrGetTomb (hash : TUniqueId → Nat) (m : QueryContextManager) (id : TUniqueId) :
    Option (QueryContext × Int) :=
  (m.shards[shardIdx hash m id]?).bind (fun s => lookupTombEntry s.second_chance id)

/-- Modelled from the spec: `remove(query_id)` takes the shard's write lock
and moves the entry (if present) from the live map into the tombstone map,
stamping it with `now + tombstone_grace_period`. -/
def mgrRemove (hash : TUniqueId → Nat) (now : Int) (m : QueryContextManager)
    (id : TUniqueId) : QueryContextManager :=
  let i := shardIdx hash m id
  match m.shards[i]? with
  | none => m
  | some s =>
      match lookupLive s.ctx_map id with
      | none => m
      | some q =>
          let s2 : ManagerShard :=
            { ctx_map := s.ctx_map.filter (fun e => !(decide (e.1 = id)))
              second_chance :=
                (id, q, now + m.grace_ms) ::
                  s.second_chance.filter (fun e => !(decide (e.1 = id))) }
          { m with shards := m.shards.set i s2 }

/-- Modelled from the spec: one reaper pass over one shard at time `now`:
under the write lock, every live context with `is_dead()` or `is_expired()`
moves to the tombstone map with a fresh grace stamp, and every tombstone
entry whose grace period has elapsed is dropped. -/
def sweepShard (now grace : Int) (s : ManagerShard) : ManagerShard :=
  let retire := fun q : QueryContext => q.is_dead || q.is_expired now
  { ctx_map := s.ctx_map.filter (fun e => !(retire e.2))
    second_chance :=
      ((s.ctx_map.filter (fun e => retire e.2)).map (fun e => (e.1, e.2, now + grace))
          ++ s.second_chance).filter (fun e => !(decide (e.2.2 < now))) }

/-- Modelled from the spec: a reaper sweep visits every shard. -/
def reaperSweep (now : Int) (m : QueryContextManager) : QueryContextManager :=
  { m with shards := m.shards.map (sweepShard now m.grace_ms) }

/-- Modelled from the spec and the tracer.h interface comments: the bodies
of `Tracer::start_trace` and `Tracer::add_span` are in tracer.cpp, which is
not among the sources.  A created span records its name (an abstract token)
and an optional parent; the tracer state is the list of spans it created,
and a span handle is the index of the span in that list. -/
structure SpanRec where
  name : Nat
  parent : Option Nat
deriving Repr, DecidableEq

/-- State of one `Tracer`: the spans created through it, in creation
order. -/
structure TracerState where
  spans : List SpanRec
deriving Repr, DecidableEq

/-- Modelled from the spec: `start_trace(name)` creates and returns a new
span that "represents a trace, since it has no parent" (tracer.h). -/
def start_trace (t : TracerState) (nm : Nat) : TracerState × Nat :=
  ({ spans := t.spans ++ [{ name := nm, parent := none }] }, t.spans.length)

/-- Modelled from the spec: `add_span(name, parent)` creates and returns a
new span "which parent span is `parent_span`" (tracer.h); the overload
taking a `SpanContext` behaves the same through the parent's context. -/
def add_span (t : TracerState) (nm : Nat) (parentSpan : Nat) : TracerState × Nat :=
  ({ spans := t.spans ++ [{ name := nm, parent := some parentSpan }] }, t.spans.length)

/-- One call on a `Tracer`: `start_trace` or `add_span` with a previously
returned span handle. -/
inductive TraceOp
  | root (nm : Nat)
  | child (nm : Nat) (parentSpan : Nat)
deriving Repr, DecidableEq

/-- Run a sequence of tracer calls. -/
def runTracer (t : TracerState) : List TraceOp → TracerState
  | [] => t
  | TraceOp.root nm :: r => runTracer (start_trace t nm).1 r
  | TraceOp.child nm p :: r => runTracer (add_span t nm p).1 r

/-- A call sequence is valid when every `add_span` call passes a handle to
a span that already exists at that point (`n` is the number of spans
created so far). -/
def validOps (n : Nat) : List TraceOp → Bool
  | [] => true
  | TraceOp.root _ :: r => validOps (n + 1) r
  | TraceOp.child _ p :: r => decide (p < n) && validOps (n + 1) r

/-- Parent linkage goes strictly backwards in creation order: with span
handles being creation indices, this is exactly "the spans form a forest of
strict trees, rooted at the parentless spans". -/
def ParentBefore (t : TracerState) : Prop :=
  ∀ (i p : Nat) (s : SpanRec), t.spans[i]? = some s → s.parent = some p → p < i

/-! ## Theorems -/

theorem runOps_snd (q : QueryContext) (ops : List FragOp) :
    (runOps q ops).2 = runResults q._num_active_fragments ops := by
  induction ops generalizing q with
  | nil => rfl
  | cons op r ih =>
      cases op with
      | inc =>
          show (runOps q.increment_num_fragments r).2 = _
          rw [ih]
          rfl
      | countDown =>
          show q.count_down_fragments.1 :: (runOps q.count_down_fragments.2 r).2 = _
          rw [ih]
          rfl

theorem count_true_runResults (ops : List FragOp) :
    ∀ a : Nat, a < size_t_mod → noWrapB a ops = true →
      (runResults a ops).count true = (runActives a ops).count 0 := by
  induction ops with
  | nil => intro a _ _; rfl
  | cons op r ih =>
      intro a ha hw
      cases op with
      | inc =>
          simp only [noWrapB, Bool.and_eq_true, decide_eq_true_eq] at hw
          have hlt : a + 1 < size_t_mod := hw.1
          have hmod : (a + 1) % size_t_mod = a + 1 := Nat.mod_eq_of_lt hlt
          simp only [runResults, runActives, hmod, List.count_cons]
          rw [ih (a + 1) hlt hw.2]
          simp
      | countDown =>
          simp only [noWrapB, Bool.and_eq_true, decide_eq_true_eq] at hw
          have h1 : 1 ≤ a := hw.1
          have hmod : wrapDec a = a - 1 := by
            rw [wrapDec, if_neg (by omega)]
          simp only [runResults, runActives, hmod, List.count_cons]
          rw [ih (a - 1) (by omega) hw.2]
          have : (a == 1) = (a - 1 == 0) := by
            cases Nat.decEq a 1 with
            | isTrue h => subst h; rfl
            | isFalse h =>
                have hne : (a == 1) = false := by simpa using h
                have hne0 : (a - 1 == 0) = false := by
                  simp only [beq_eq_false_iff_ne, ne_eq]
                  omega
                rw [hne, hne0]
          rw [this]
          simp

theorem runExtends_eq_map (q : QueryContext) (ns : List Int) :
    runExtends q ns = ns.map (fun n => n + 1000 * q._expire_seconds) := by
  induction ns generalizing q with
  | nil => rfl
  | cons n r ih =>
      show (n + 1000 * q._expire_seconds) :: runExtends (q.extend_lifetime n) r = _
      rw [ih]
      rfl

theorem chainLeB_chain' (ns : List Int) : chainLeB ns = true → ns.Chain' (· ≤ ·) := by
  induction ns with
  | nil =>
      intro _
      simp
  | cons a r ih =>
      cases r with
      | nil =>
          intro _
          simp
      | cons b r2 =>
          intro h
          rw [chainLeB, Bool.and_eq_true, decide_eq_true_eq] at h
          rw [List.chain'_cons]
          exact ⟨h.1, ih h.2⟩

theorem mem_inits_iff {α : Type} (p l : List α) :
    p ∈ l.inits ↔ ∃ t, p ++ t = l := by
  rw [List.mem_inits]
  exact Iff.rfl

theorem nil_mem_inits {α : Type} (l : List α) : ([] : List α) ∈ l.inits := by
  rw [mem_inits_iff]
  exact ⟨l, rfl⟩

theorem cons_mem_inits {α : Type} (a : α) {p l : List α} (h : p ∈ l.inits) :
    (a :: p) ∈ (a :: l).inits := by
  rw [mem_inits_iff] at h ⊢
  obtain ⟨t, rfl⟩ := h
  exact ⟨t, rfl⟩

theorem self_mem_inits {α : Type} (l : List α) : l ∈ l.inits := by
  rw [mem_inits_iff]
  exact ⟨[], by simp⟩

theorem countInc_nil : countInc [] = 0 := rfl

theorem countCd_nil : countCd [] = 0 := rfl

theorem countInc_cons (op : QOp) (l : List QOp) :
    countInc (op :: l) = countInc l + if op = QOp.inc then 1 else 0 := by
  simp [countInc, List.count_cons]

theorem countCd_cons (op : QOp) (l : List QOp) :
    countCd (op :: l) = countCd l + if op = QOp.countDown then 1 else 0 := by
  simp [countCd, List.count_cons]

theorem countInc_append (p t : List QOp) :
    countInc (p ++ t) = countInc p + countInc t := by
  simp [countInc, List.count_append]

theorem countCd_append (p t : List QOp) :
    countCd (p ++ t) = countCd p + countCd t := by
  simp [countCd, List.count_append]

theorem wrapDec_eq_mod (a : Nat) (h : a < size_t_mod) :
    wrapDec a = (a + (size_t_mod - 1)) % size_t_mod := by
  have h0 : (0 : Nat) < size_t_mod := by decide
  rcases Nat.eq_zero_or_pos a with h1 | h1
  · rw [wrapDec, if_pos h1, h1, Nat.zero_add, Nat.mod_eq_of_lt (by omega)]
  · rw [wrapDec, if_neg (by omega)]
    have h3 : a + (size_t_mod - 1) = (a - 1) + 1 * size_t_mod := by omega
    rw [h3, Nat.add_mul_mod_self_right]
    exact (Nat.mod_eq_of_lt (by omega)).symm

theorem runQOps_cons (q : QueryContext) (op : QOp) (r : List QOp) :
    runQOps q (op :: r) = runQOps (applyQOp q op) r := by
  rw [runQOps]

theorem runQOps_counters (ops : List QOp) :
    ∀ q : QueryContext,
      q._num_active_fragments ≤ q._num_fragments →
      q._num_fragments + countInc ops < size_t_mod →
      (∀ p ∈ ops.inits, countCd p ≤ q._num_active_fragments + countInc p) →
      (runQOps q ops)._num_fragments = q._num_fragments + countInc ops
      ∧ (runQOps q ops)._num_active_fragments
          = q._num_active_fragments + countInc ops - countCd ops
      ∧ (runQOps q ops)._total_fragments = q._total_fragments := by
  induction ops with
  | nil =>
      intro q h1 h2 h3
      refine ⟨?_, ?_, rfl⟩ <;> simp [runQOps, countInc_nil, countCd_nil]
  | cons op r ih =>
      intro q h1 h2 h3
      have hcons : ∀ p ∈ r.inits, (op :: p) ∈ (op :: r).inits :=
        fun p hp => cons_mem_inits op hp
      cases op with
      | inc =>
          have hci : countInc (QOp.inc :: r) = countInc r + 1 := by
            rw [countInc_cons]
            simp
          have hcc : countCd (QOp.inc :: r) = countCd r := by
            rw [countCd_cons]
            simp
          rw [hci] at h2
          have hnum : (q._num_fragments + 1) % size_t_mod = q._num_fragments + 1 :=
            Nat.mod_eq_of_lt (by omega)
          have hact : (q._num_active_fragments + 1) % size_t_mod
              = q._num_active_fragments + 1 :=
            Nat.mod_eq_of_lt (by omega)
          have e1 : q.increment_num_fragments._num_fragments
              = (q._num_fragments + 1) % size_t_mod := rfl
          have e2 : q.increment_num_fragments._num_active_fragments
              = (q._num_active_fragments + 1) % size_t_mod := rfl
          have e3 : q.increment_num_fragments._total_fragments = q._total_fragments := rfl
          have h3' : ∀ p ∈ r.inits,
              countCd p ≤ (q._num_active_fragments + 1) + countInc p := by
            intro p hp
            have hx := h3 (QOp.inc :: p) (hcons p hp)
            rw [countCd_cons, countInc_cons] at hx
            simp at hx
            omega
          have step := ih q.increment_num_fragments
            (by rw [e1, e2, hnum, hact]; omega)
            (by rw [e1, hnum]; omega)
            (by rw [e2, hact]; exact h3')
          rw [runQOps_cons]
          simp only [applyQOp]
          rw [step.1, step.2.1, step.2.2, hci, hcc, e1, e2, e3, hnum, hact]
          omega
      | countDown =>
          have hci : countInc (QOp.countDown :: r) = countInc r := by
            rw [countInc_cons]
            simp
          have hcc : countCd (QOp.countDown :: r) = countCd r + 1 := by
            rw [countCd_cons]
            simp
          rw [hci] at h2
          have hone := h3 [QOp.countDown] (cons_mem_inits QOp.countDown (nil_mem_inits r))
          rw [countCd_cons, countInc_cons, countCd_nil, countInc_nil] at hone
          simp at hone
          have hact : wrapDec q._num_active_fragments
              = q._num_active_fragments - 1 := by
            rw [wrapDec, if_neg (by omega)]
          have e1 : q.count_down_fragments.2._num_fragments = q._num_fragments := rfl
          have e2 : q.count_down_fragments.2._num_active_fragments
              = wrapDec q._num_active_fragments := rfl
          have e3 : q.count_down_fragments.2._total_fragments = q._total_fragments := rfl
          have h3' : ∀ p ∈ r.inits,
              countCd p ≤ (q._num_active_fragments - 1) + countInc p := by
            intro p hp
            have hx := h3 (QOp.countDown :: p) (hcons p hp)
            rw [countCd_cons, countInc_cons] at hx
            simp at hx
            omega
          have step := ih q.count_down_fragments.2
            (by rw [e1, e2, hact]; omega)
            (by rw [e1]; omega)
            (by rw [e2, hact]; exact h3')
          rw [runQOps_cons]
          simp only [applyQOp]
          rw [step.1, step.2.1, step.2.2, hci, hcc, e1, e2, e3, hact]
          omega
      | setExpire e =>
          have hci : countInc (QOp.setExpire e :: r) = countInc r := by
            rw [countInc_cons]
            simp
          have hcc : countCd (QOp.setExpire e :: r) = countCd r := by
            rw [countCd_cons]
            simp
          rw [hci] at h2
          have e1 : (q.set_expire_seconds e)._num_fragments = q._num_fragments := rfl
          have e2 : (q.set_expire_seconds e)._num_active_fragments
              = q._num_active_fragments := rfl
          have e3 : (q.set_expire_seconds e)._total_fragments = q._total_fragments := rfl
          have h3' : ∀ p ∈ r.inits,
              countCd p ≤ q._num_active_fragments + countInc p := by
            intro p hp
            have hx := h3 (QOp.setExpire e :: p) (hcons p hp)
            rw [countCd_cons, countInc_cons] at hx
            simp at hx
            omega
          have step := ih (q.set_expire_seconds e)
            (by rw [e1, e2]; exact h1)
            (by rw [e1]; omega)
            (by rw [e2]; exact h3')
          rw [runQOps_cons]
          simp only [applyQOp]
          rw [step.1, step.2.1, step.2.2, hci, hcc, e1, e2, e3]
          omega
      | extendLifetime now =>
          have hci : countInc (QOp.extendLifetime now :: r) = countInc r := by
            rw [countInc_cons]
            simp
          have hcc : countCd (QOp.extendLifetime now :: r) = countCd r := by
            rw [countCd_cons]
            simp
          rw [hci] at h2
          have e1 : (q.extend_lifetime now)._num_fragments = q._num_fragments := rfl
          have e2 : (q.extend_lifetime now)._num_active_fragments
              = q._num_active_fragments := rfl
          have e3 : (q.extend_lifetime now)._total_fragments = q._total_fragments := rfl
          have h3' : ∀ p ∈ r.inits,
              countCd p ≤ q._num_active_fragments + countInc p := by
            intro p hp
            have hx := h3 (QOp.extendLifetime now :: p) (hcons p hp)
            rw [countCd_cons, countInc_cons] at hx
            simp at hx
            omega
          have step := ih (q.extend_lifetime now)
            (by rw [e1, e2]; exact h1)
            (by rw [e1]; omega)
            (by rw [e2]; exact h3')
          rw [runQOps_cons]
          simp only [applyQOp]
          rw [step.1, step.2.1, step.2.2, hci, hcc, e1, e2, e3]
          omega
      | setDescTbl d =>
          have hci : countInc (QOp.setDescTbl d :: r) = countInc r := by
            rw [countInc_cons]
            simp
          have hcc : countCd (QOp.setDescTbl d :: r) = countCd r := by
            rw [countCd_cons]
            simp
          rw [hci] at h2
          have e1 : ((q.set_desc_tbl false d).getD q)._num_fragments
              = q._num_fragments := rfl
          have e2 : ((q.set_desc_tbl false d).getD q)._num_active_fragments
              = q._num_active_fragments := rfl
          have e3 : ((q.set_desc_tbl false d).getD q)._total_fragments
              = q._total_fragments := rfl
          have h3' : ∀ p ∈ r.inits,
              countCd p ≤ q._num_active_fragments + countInc p := by
            intro p hp
            have hx := h3 (QOp.setDescTbl d :: p) (hcons p hp)
            rw [countCd_cons, countInc_cons] at hx
            simp at hx
            omega
          have step := ih ((q.set_desc_tbl false d).getD q)
            (by rw [e1, e2]; exact h1)
            (by rw [e1]; omega)
            (by rw [e2]; exact h3')
          rw [runQOps_cons]
          simp only [applyQOp]
          rw [step.1, step.2.1, step.2.2, hci, hcc, e1, e2, e3]
          omega

/-- C4: starting from a context after setup (`total_fragments = T`, both
counters zero), for any sequence of public-interface mutators with at most
`T` calls to `increment_num_fragments` and, at every point, no more
`count_down_fragments` calls than `increment_num_fragments` calls so far,
the invariant `num_active_fragments <= num_fragments <= total_fragments`
holds after every operation. -/
theorem fragment_counter_invariant (T : Nat) (hT : T < size_t_mod)
    (ops : List QOp)
    (hcd : ∀ p ∈ ops.inits, countCd p ≤ countInc p)
    (hinc : countInc ops ≤ T) :
    ∀ p ∈ ops.inits,
      (runQOps (freshQueryContext.set_total_fragments T) p)._num_active_fragments
          ≤ (runQOps (freshQueryContext.set_total_fragments T) p)._num_fragments
      ∧ (runQOps (freshQueryContext.set_total_fragments T) p)._num_fragments
          ≤ (runQOps (freshQueryContext.set_total_fragments T) p)._total_fragments := by
  intro p hp
  rw [mem_inits_iff] at hp
  obtain ⟨t, rfl⟩ := hp
  have hip : countInc p ≤ T := by
    rw [countInc_append] at hinc
    omega
  have hsub : ∀ p2 ∈ p.inits, p2 ∈ (p ++ t).inits := by
    intro p2 hp2
    rw [mem_inits_iff] at hp2 ⊢
    obtain ⟨t2, rfl⟩ := hp2
    exact ⟨t2 ++ t, by rw [List.append_assoc]⟩
  have e1 : (freshQueryContext.set_total_fragments T)._num_fragments = 0 := rfl
  have e2 : (freshQueryContext.set_total_fragments T)._num_active_fragments = 0 := rfl
  have e3 : (freshQueryContext.set_total_fragments T)._total_fragments = T := rfl
  have step := runQOps_counters p (freshQueryContext.set_total_fragments T)
    (by rw [e1, e2])
    (by rw [e1]; omega)
    (by
      rw [e2]
      intro p2 hp2
      have hx := hcd p2 (hsub p2 hp2)
      omega)
  rw [step.1, step.2.1, step.2.2, e1, e2, e3]
  have hcdp : countCd p ≤ countInc p := hcd p (hsub p (self_mem_inits p))
  constructor
  · omega
  · omega

/-- Witness for `fragment_counter_invariant`. -/
theorem fragment_counter_invariant_witness :
    (runQOps (freshQueryContext.set_total_fragments 2) [QOp.inc])._num_active_fragments
        ≤ (runQOps (freshQueryContext.set_total_fragments 2) [QOp.inc])._num_fragments
    ∧ (runQOps (freshQueryContext.set_total_fragments 2) [QOp.inc])._num_fragments
        ≤ (runQOps (freshQueryContext.set_total_fragments 2) [QOp.inc])._total_fragments :=
  fragment_counter_invariant 2 (by decide) [QOp.inc, QOp.countDown]
    (by decide) (by decide) [QOp.inc] (by decide)

/-- C1 counterexample: on the run `inc, countDown, inc, countDown` from a
fresh context (two fragments that do not overlap in time), the active
count reaches zero twice and BOTH `count_down_fragments` calls return
true, so it is not the case that exactly one call returns true in every
sequence. -/
theorem count_down_two_true :
    ((runOps freshQueryContext
        [FragOp.inc, FragOp.countDown, FragOp.inc, FragOp.countDown]).2 = [true, true])
    ∧ (runOps freshQueryContext
        [FragOp.inc, FragOp.countDown, FragOp.inc, FragOp.countDown]).1._num_active_fragments
        = 0 := by
  decide

/-- C1 (amended): `count_down_fragments` returns true iff that call
observed `_num_active_fragments` transition from 1 to 0; consequently, in
every sequence of `increment_num_fragments`/`count_down_fragments` calls
that neither wraps the counter nor drives it to zero more than once,
exactly one `count_down_fragments` call returns true. -/
theorem count_down_exactly_once :
    (∀ q : QueryContext, q.count_down_fragments.1 = true ↔ q._num_active_fragments = 1)
    ∧ ∀ (q : QueryContext) (ops : List FragOp),
        q._num_active_fragments < size_t_mod →
        noWrapB q._num_active_fragments ops = true →
        (runActives q._num_active_fragments ops).count 0 = 1 →
        ((runOps q ops).2).count true = 1 := by
  constructor
  · intro q
    simp [QueryContext.count_down_fragments]
  · intro q ops ha hw hz
    rw [runOps_snd, count_true_runResults ops q._num_active_fragments ha hw]
    exact hz

/-- Witness for `count_down_exactly_once`: two overlapping fragments. -/
theorem count_down_exactly_once_witness :
    ((runOps freshQueryContext
        [FragOp.inc, FragOp.inc, FragOp.countDown, FragOp.countDown]).2).count true = 1 :=
  count_down_exactly_once.2 freshQueryContext
    [FragOp.inc, FragOp.inc, FragOp.countDown, FragOp.countDown]
    (by decide) (by decide) (by decide)

/-- C2: `is_dead()` is true iff `_num_active_fragments == 0` and
`_num_fragments == _total_fragments`; it implies `is_finished()`, and it
is false whenever some expected fragment has not yet registered, even if
every registered fragment has finished. -/
theorem is_dead_characterization (q : QueryContext) :
    (q.is_dead = true ↔
      q._num_active_fragments = 0 ∧ q._num_fragments = q._total_fragments)
    ∧ (q.is_dead = true → q.is_finished = true)
    ∧ (q._num_active_fragments = 0 → q._num_fragments < q._total_fragments →
        q.is_dead = false) := by
  refine ⟨?_, ?_, ?_⟩
  · simp [QueryContext.is_dead]
  · intro h
    rw [QueryContext.is_dead, Bool.and_eq_true] at h
    rw [QueryContext.is_finished]
    exact h.1
  · intro hact hlt
    simp only [QueryContext.is_dead, Bool.and_eq_false_iff, beq_eq_false_iff_ne, ne_eq]
    right
    omega

/-- Witness for `is_dead_characterization`: all three registered fragments
finished but a fourth expected fragment never registered. -/
theorem is_dead_characterization_witness :
    QueryContext.is_dead ⟨4, 3, 0, 0, 0, none⟩ = false :=
  (is_dead_characterization ⟨4, 3, 0, 0, 0, none⟩).2.2 (by decide) (by decide)

/-- C3 counterexample: re-setting `expire_seconds` to a smaller value
between two `extend_lifetime()` calls makes the deadline decrease even
though "now" increased (0 ms then 1 ms). -/
theorem extend_lifetime_deadline_decreases :
    ((freshQueryContext.set_expire_seconds 100).extend_lifetime 0)._deadline = 100000
    ∧ ((((freshQueryContext.set_expire_seconds 100).extend_lifetime 0).set_expire_seconds
          0).extend_lifetime 1)._deadline = 1
    ∧ (1 : Int) < 100000 ∧ (0 : Int) < 1 := by
  decide

/-- C3 (amended): with `expire_seconds` left unchanged between the calls,
a sequence of `extend_lifetime()` calls at non-decreasing "now" time
points produces a non-decreasing sequence of deadlines. -/
theorem extend_lifetime_monotone (q : QueryContext) (ns : List Int)
    (h : chainLeB ns = true) :
    (runExtends q ns).Chain' (· ≤ ·) := by
  have h2 := chainLeB_chain' ns h
  rw [runExtends_eq_map, List.chain'_map]
  refine h2.imp ?_
  intro a b hab
  dsimp only
  omega

/-- Witness for `extend_lifetime_monotone`. -/
theorem extend_lifetime_monotone_witness :
    (runExtends (freshQueryContext.set_expire_seconds 10) [2, 5, 9]).Chain' (· ≤ ·) :=
  extend_lifetime_monotone (freshQueryContext.set_expire_seconds 10) [2, 5, 9] (by decide)

/-- C5: with `total_fragments = 3`, after three `increment_num_fragments`
calls `is_finished()` is false; three `count_down_fragments` calls then
return false, false, true, after which `is_finished()` and `is_dead()`
are true. -/
theorem roundtrip_three_fragments :
    ((runOps (freshQueryContext.set_total_fragments 3)
        [FragOp.inc, FragOp.inc, FragOp.inc]).1.is_finished = false)
    ∧ ((runOps (freshQueryContext.set_total_fragments 3)
        [FragOp.inc, FragOp.inc, FragOp.inc,
         FragOp.countDown, FragOp.countDown, FragOp.countDown]).2
        = [false, false, true])
    ∧ ((runOps (freshQueryContext.set_total_fragments 3)
        [FragOp.inc, FragOp.inc, FragOp.inc,
         FragOp.countDown, FragOp.countDown, FragOp.countDown]).1.is_finished = true)
    ∧ ((runOps (freshQueryContext.set_total_fragments 3)
        [FragOp.inc, FragOp.inc, FragOp.inc,
         FragOp.countDown, FragOp.countDown, FragOp.countDown]).1.is_dead = true) := by
  decide

/-- C6 counterexample: in a release build (`debug = false`) the `DCHECK`s
compile away, so a second `set_desc_tbl` succeeds silently (overwriting
the stored pointer) and `desc_tbl()` before any set silently returns the
null pointer — no distinguishable error in that build. -/
theorem desc_tbl_release_silent :
    ((QueryContext.set_desc_tbl false freshQueryContext 1).bind
        (fun q => q.set_desc_tbl false 2)
      = some { freshQueryContext with _desc_tbl := some 2 })
    ∧ QueryContext.desc_tbl false freshQueryContext = some none := by
  decide

/-- C6 (amended): double-set and read-before-set are caught (fail fast)
only in debug builds, via `DCHECK`; in release builds `set_desc_tbl`
silently overwrites and `desc_tbl()` returns whatever pointer is stored,
null included. -/
theorem desc_tbl_dcheck (q : QueryContext) (d : Nat) :
    (q._desc_tbl ≠ none → q.set_desc_tbl true d = none)
    ∧ (q._desc_tbl = none → q.desc_tbl true = none)
    ∧ (q._desc_tbl = none → q.set_desc_tbl true d = some { q with _desc_tbl := some d })
    ∧ q.set_desc_tbl false d = some { q with _desc_tbl := some d }
    ∧ q.desc_tbl false = some q._desc_tbl := by
  refine ⟨?_, ?_, ?_, ?_, ?_⟩
  · intro h
    simp [QueryContext.set_desc_tbl, h]
  · intro h
    simp [QueryContext.desc_tbl, h]
  · intro h
    simp [QueryContext.set_desc_tbl, h]
  · simp [QueryContext.set_desc_tbl]
  · simp [QueryContext.desc_tbl]

/-- Witness for `desc_tbl_dcheck`: a debug build aborts on double-set. -/
theorem desc_tbl_dcheck_witness :
    QueryContext.set_desc_tbl true ⟨0, 0, 0, 0, 0, some 7⟩ 9 = none :=
  (desc_tbl_dcheck ⟨0, 0, 0, 0, 0, some 7⟩ 9).1 (by decide)

/-- C7 counterexample: `QueryContextManager::get_or_register` is declared
to return a raw `QueryContext*`, a borrowed non-owning pointer, so not
every lookup handle carries shared ownership. -/
theorem get_or_register_raw :
    get_or_register_handle = HandleKind.rawPointer
    ∧ get_or_register_handle ≠ HandleKind.sharedOwnership := by
  decide

/-- C7 (amended): of the two lookup operations, only `get` returns a
shared-ownership handle (`QueryContextPtr`); `get_or_register` returns a
raw non-owning pointer. -/
theorem lookup_handle_kinds :
    get_handle = HandleKind.sharedOwnership
    ∧ get_or_register_handle = HandleKind.rawPointer := by
  decide

/-- C10: calling `count_down_fragments` with `_num_active_fragments == 0`
returns false and wraps the counter modulo `2 ^ 64` to its maximum value
`2 ^ 64 - 1`, after which `is_finished()` and `is_dead()` are false. -/
theorem count_down_on_zero (q : QueryContext)
    (h : q._num_active_fragments = 0) :
    q.count_down_fragments.1 = false
    ∧ q.count_down_fragments.2._num_active_fragments = size_t_mod - 1
    ∧ q.count_down_fragments.2.is_finished = false
    ∧ q.count_down_fragments.2.is_dead = false := by
  have h2 : wrapDec q._num_active_fragments = size_t_mod - 1 := by
    rw [h, wrapDec, if_pos rfl]
  have h3 : ((size_t_mod - 1 : Nat) == 0) = false := by decide
  refine ⟨?_, ?_, ?_, ?_⟩
  · simp [QueryContext.count_down_fragments, h]
  · simp [QueryContext.count_down_fragments, h2]
  · simp only [QueryContext.is_finished, QueryContext.count_down_fragments, h2, h3]
  · simp only [QueryContext.is_dead, QueryContext.count_down_fragments, h2, h3,
      Bool.false_and]

/-- Witness for `count_down_on_zero`. -/
theorem count_down_on_zero_witness :
    (QueryContext.count_down_fragments ⟨3, 3, 0, 0, 0, none⟩).1 = false :=
  (count_down_on_zero ⟨3, 3, 0, 0, 0, none⟩ rfl).1

theorem find?_filter_not_key {α : Type} (l : List α) (p : α → Bool) :
    (l.filter (fun e => !(p e))).find? p = none := by
  rw [List.find?_eq_none]
  intro x hx
  have h2 := (List.mem_filter.mp hx).2
  simp only [Bool.not_eq_true'] at h2
  simp [h2]

theorem find?_filter_none {α : Type} (l : List α) (p p2 : α → Bool)
    (h : l.find? p = none) : (l.filter p2).find? p = none := by
  rw [List.find?_eq_none] at h ⊢
  intro x hx
  exact h x (List.mem_filter.mp hx).1

/-- C8: for a query id present in the live map, `remove(query_id)` moves
the entry into the shard's tombstone map stamped `now + grace`; a
subsequent `get(query_id)` still returns that context (so any `get`
within the grace period, before a sweep, succeeds); and once the grace
period has elapsed, a reaper sweep prunes the tombstone, after which
`get(query_id)` returns empty. -/
theorem remove_tombstone_get (hash : TUniqueId → Nat) (m : QueryContextManager)
    (id : TUniqueId) (q : QueryContext) (now : Int)
    (hlive : mgrGetLive hash m id = some q) :
    mgrGet hash (mgrRemove hash now m id) id = some q
    ∧ mgrGetTomb hash (mgrRemove hash now m id) id = some (q, now + m.grace_ms)
    ∧ ∀ t : Int, now + m.grace_ms < t →
        mgrGet hash (reaperSweep t (mgrRemove hash now m id)) id = none := by
  rw [mgrGetLive] at hlive
  cases hs : m.shards[shardIdx hash m id]? with
  | none =>
      rw [hs, Option.none_bind] at hlive
      exact absurd hlive (by simp)
  | some s =>
      rw [hs, Option.some_bind] at hlive
      have hi : shardIdx hash m id < m.shards.length := by
        rcases List.getElem?_eq_some_iff.mp hs with ⟨h, _⟩
        exact h
      have hrem : mgrRemove hash now m id
          = { m with shards := (m.shards.set (shardIdx hash m id)
              (ManagerShard.mk (s.ctx_map.filter (fun e => !(decide (e.1 = id))))
                ((id, q, now + m.grace_ms) ::
                  s.second_chance.filter (fun e => !(decide (e.1 = id)))))) } := by
        rw [mgrRemove]
        simp only [hs, hlive]
      have h2shards : (mgrRemove hash now m id).shards
          = m.shards.set (shardIdx hash m id)
              (ManagerShard.mk (s.ctx_map.filter (fun e => !(decide (e.1 = id))))
                ((id, q, now + m.grace_ms) ::
                  s.second_chance.filter (fun e => !(decide (e.1 = id))))) := by
        rw [hrem]
      have h2grace : (mgrRemove hash now m id).grace_ms = m.grace_ms := by
        rw [hrem]
      have hidx2 : shardIdx hash (mgrRemove hash now m id) id = shardIdx hash m id := by
        rw [shardIdx, h2shards, List.length_set]
        rfl
      have hget2 : (mgrRemove hash now m id).shards[shardIdx hash m id]?
          = some (ManagerShard.mk (s.ctx_map.filter (fun e => !(decide (e.1 = id))))
              ((id, q, now + m.grace_ms) ::
                s.second_chance.filter (fun e => !(decide (e.1 = id))))) := by
        rw [h2shards]
        exact List.getElem?_set_self hi
      have hl2 : lookupLive (s.ctx_map.filter (fun e => !(decide (e.1 = id)))) id
          = none := by
        rw [lookupLive, find?_filter_not_key]
        rfl
      refine ⟨?_, ?_, ?_⟩
      · rw [mgrGet, hidx2, hget2, Option.some_bind]
        show (lookupLive _ id).orElse _ = some q
        rw [hl2]
        show lookupTomb ((id, q, now + m.grace_ms) ::
            s.second_chance.filter (fun e => !(decide (e.1 = id)))) id = some q
        simp [lookupTomb]
      · rw [mgrGetTomb, hidx2, hget2, Option.some_bind]
        show lookupTombEntry ((id, q, now + m.grace_ms) ::
            s.second_chance.filter (fun e => !(decide (e.1 = id)))) id
            = some (q, now + m.grace_ms)
        simp [lookupTombEntry]
      · intro t ht
        have h3shards : (reaperSweep t (mgrRemove hash now m id)).shards
            = (mgrRemove hash now m id).shards.map (sweepShard t m.grace_ms) := by
          rw [reaperSweep, h2grace]
        have hidx3 : shardIdx hash (reaperSweep t (mgrRemove hash now m id)) id
            = shardIdx hash m id := by
          rw [shardIdx, h3shards, List.length_map, h2shards, List.length_set]
          rfl
        have hget3 : (reaperSweep t (mgrRemove hash now m id)).shards[shardIdx hash m id]?
            = some (sweepShard t m.grace_ms
                (ManagerShard.mk (s.ctx_map.filter (fun e => !(decide (e.1 = id))))
                  ((id, q, now + m.grace_ms) ::
                    s.second_chance.filter (fun e => !(decide (e.1 = id)))))) := by
          rw [h3shards, List.getElem?_map, h2shards, List.getElem?_set_self hi]
          rfl
        rw [mgrGet, hidx3, hget3, Option.some_bind, sweepShard]
        have hl3 : lookupLive
            ((s.ctx_map.filter (fun e => !(decide (e.1 = id)))).filter
              (fun e => !(QueryContext.is_dead e.2 || QueryContext.is_expired t e.2)))
            id = none := by
          rw [lookupLive, find?_filter_none _ _ _ (find?_filter_not_key _ _)]
          rfl
        have ht3 : lookupTomb
            ((((s.ctx_map.filter (fun e => !(decide (e.1 = id)))).filter
                  (fun e => QueryContext.is_dead e.2 || QueryContext.is_expired t e.2)).map
                (fun e => (e.1, e.2, t + m.grace_ms))
              ++ ((id, q, now + m.grace_ms) ::
                  s.second_chance.filter (fun e => !(decide (e.1 = id))))).filter
              (fun e => !(decide (e.2.2 < t))))
            id = none := by
          rw [lookupTomb, List.find?_eq_none.2]
          · rfl
          · intro x hx hpx
            have hxid : x.1 = id := of_decide_eq_true hpx
            rw [List.mem_filter] at hx
            obtain ⟨hxa, hxexp⟩ := hx
            rw [List.mem_append] at hxa
            cases hxa with
            | inl hret =>
                rw [List.mem_map] at hret
                obtain ⟨e, he, hex⟩ := hret
                have he2 := (List.mem_filter.mp he).1
                have he3 := (List.mem_filter.mp he2).2
                simp only [Bool.not_eq_true', decide_eq_false_iff_not] at he3
                apply he3
                rw [← hxid, ← hex]
            | inr htomb =>
                rw [List.mem_cons] at htomb
                cases htomb with
                | inl hhead =>
                    rw [hhead] at hxexp
                    simp only [Bool.not_eq_true', decide_eq_false_iff_not] at hxexp
                    exact hxexp ht
                | inr htail =>
                    have ht2 := (List.mem_filter.mp htail).2
                    simp only [Bool.not_eq_true', decide_eq_false_iff_not] at ht2
                    exact ht2 hxid
        show (lookupLive _ id).orElse _ = none
        rw [hl3]
        show lookupTomb _ id = none
        exact ht3

/-- Witness for `remove_tombstone_get`: a one-shard registry holding one
live context; after `remove` at time 100 with grace 50, `get` still finds
it, and a sweep at time 151 erases it. -/
theorem remove_tombstone_get_witness :
    mgrGet (fun _ => 0) (mgrRemove (fun _ => 0) 100
        ⟨[⟨[(⟨1, 2⟩, freshQueryContext)], []⟩], 50⟩ ⟨1, 2⟩) ⟨1, 2⟩
      = some freshQueryContext
    ∧ mgrGet (fun _ => 0) (reaperSweep 151 (mgrRemove (fun _ => 0) 100
        ⟨[⟨[(⟨1, 2⟩, freshQueryContext)], []⟩], 50⟩ ⟨1, 2⟩)) ⟨1, 2⟩ = none :=
  ⟨(remove_tombstone_get (fun _ => 0) ⟨[⟨[(⟨1, 2⟩, freshQueryContext)], []⟩], 50⟩
      ⟨1, 2⟩ freshQueryContext 100 (by decide)).1,
   (remove_tombstone_get (fun _ => 0) ⟨[⟨[(⟨1, 2⟩, freshQueryContext)], []⟩], 50⟩
      ⟨1, 2⟩ freshQueryContext 100 (by decide)).2.2 151 (by decide)⟩

theorem parentBefore_append (t : TracerState) (srec : SpanRec)
    (h : ParentBefore t)
    (hp : ∀ p : Nat, srec.parent = some p → p < t.spans.length) :
    ParentBefore ⟨t.spans ++ [srec]⟩ := by
  intro i p s hget hpar
  rcases Nat.lt_trichotomy i t.spans.length with hlt | heq | hgt
  · rw [List.getElem?_append_left hlt] at hget
    exact h i p s hget hpar
  · subst heq
    rw [List.getElem?_concat_length] at hget
    cases hget
    exact hp p hpar
  · rw [List.getElem?_eq_none (by simp; omega)] at hget
    cases hget

/-- C9: `start_trace` creates and returns a new span with no parent (a
root), `add_span` creates and returns a new span whose parent is the
given span, and on any valid call sequence every span's parent was
created strictly earlier, so the spans of one tracer form a forest of
strict trees via parent linkage. -/
theorem spans_form_tree :
    (∀ (t : TracerState) (nm : Nat),
        (start_trace t nm).1.spans = t.spans ++ [{ name := nm, parent := none }]
        ∧ (start_trace t nm).2 = t.spans.length)
    ∧ (∀ (t : TracerState) (nm p : Nat),
        (add_span t nm p).1.spans = t.spans ++ [{ name := nm, parent := some p }]
        ∧ (add_span t nm p).2 = t.spans.length)
    ∧ ∀ (t : TracerState) (ops : List TraceOp),
        ParentBefore t → validOps t.spans.length ops = true →
        ParentBefore (runTracer t ops) := by
  refine ⟨fun t nm => ⟨rfl, rfl⟩, fun t nm p => ⟨rfl, rfl⟩, ?_⟩
  intro t ops
  induction ops generalizing t with
  | nil => exact fun h _ => h
  | cons op r ih =>
      intro h hv
      cases op with
      | root nm =>
          have hlen : (start_trace t nm).1.spans.length = t.spans.length + 1 := by
            simp [start_trace]
          have hpb : ParentBefore (start_trace t nm).1 :=
            parentBefore_append t { name := nm, parent := none } h
              (fun p hp => by cases hp)
          have hv2 : validOps (start_trace t nm).1.spans.length r = true := by
            rw [hlen]
            exact hv
          exact ih (start_trace t nm).1 hpb hv2
      | child nm p =>
          rw [validOps, Bool.and_eq_true, decide_eq_true_eq] at hv
          have hlen : (add_span t nm p).1.spans.length = t.spans.length + 1 := by
            simp [add_span]
          have hpb : ParentBefore (add_span t nm p).1 :=
            parentBefore_append t { name := nm, parent := some p } h
              (fun p2 hp2 => by cases hp2; exact hv.1)
          have hv2 : validOps (add_span t nm p).1.spans.length r = true := by
            rw [hlen]
            exact hv.2
          exact ih (add_span t nm p).1 hpb hv2

/-- Witness for `spans_form_tree`: a root span and one child under it. -/
theorem spans_form_tree_witness :
    ParentBefore (runTracer ⟨[]⟩ [TraceOp.root 0, TraceOp.child 1 0]) :=
  spans_form_tree.2.2 ⟨[]⟩ [TraceOp.root 0, TraceOp.child 1 0]
    (fun i p s hget _ => by simp at hget) (by decide)

end Pipeline
end StarRocks
